import Mathlib

/-!
Verification of the AutoMorph DICOM-to-PNG converter
(`src/images/dicom_to_png.py`).

Shallow embedding conventions:
* NumPy float64 arithmetic is idealized as exact rational arithmetic (ℚ).
* A pixel array is a rank-2 grid, `List (List ℚ)`; elementwise NumPy
  operations become `arrMap`.
* `np.clip(x, lo, hi)` is `min hi (max x lo)` (NumPy's documented formula
  `minimum(a_max, maximum(a, a_min))`, with no check that `lo ≤ hi`).
* `astype(np.uint8)` on a float64 value is truncation toward zero followed
  by reduction modulo 256 (the machine behaviour of the narrowing cast).
* `np.ndarray.min()` / `.max()` are folds over the flattened array; on an
  empty array NumPy raises, so the embedding's default value 0 is never
  relied upon: theorems about the full-range branch carry a nonemptiness
  hypothesis.
-/

/-- NumPy `np.clip(x, lo, hi) = minimum(hi, maximum(x, lo))`. -/
def npClip (x lo hi : ℚ) : ℚ := min hi (max x lo)

/-- Elementwise map over a rank-2 array (NumPy broadcasting of a scalar op). -/
def arrMap (f : ℚ → ℚ) (a : List (List ℚ)) : List (List ℚ) :=
  a.map (fun row => row.map f)

/-- Elementwise map producing the uint8 result array. -/
def arrMapN (f : ℚ → ℕ) (a : List (List ℚ)) : List (List ℕ) :=
  a.map (fun row => row.map f)

/-- The flattened element list of a rank-2 array. -/
def flat (a : List (List ℚ)) : List ℚ := a.flatten

/-- Minimum of a list, with (never-relied-upon) default 0 for `[]`. -/
def listMin : List ℚ → ℚ
  | [] => 0
  | x :: xs => xs.foldl min x

/-- Maximum of a list, with (never-relied-upon) default 0 for `[]`. -/
def listMax : List ℚ → ℚ
  | [] => 0
  | x :: xs => xs.foldl max x

/-- `pixel_array.min()`. -/
def amin (a : List (List ℚ)) : ℚ := listMin (flat a)

/-- `pixel_array.max()`. -/
def amax (a : List (List ℚ)) : ℚ := listMax (flat a)

/-- Truncation toward zero of a rational (C / NumPy float→int cast). -/
def ratTrunc (q : ℚ) : ℤ := if 0 ≤ q then ⌊q⌋ else -⌊-q⌋

/-- `astype(np.uint8)` applied to one float64 sample: truncate toward zero,
take the low byte. -/
def f64ToUint8 (q : ℚ) : ℕ := (ratTrunc q % 256).toNat

/-- `np.zeros_like(p).astype(np.uint8)`: all-zero uint8 array of `p`'s shape. -/
def zerosLike (p : List (List ℚ)) : List (List ℕ) :=
  p.map (fun row => row.map (fun _ => 0))

/-- One sample of the linear rescale `((x - lo) / (hi - lo)) * 255`,
cast to uint8. -/
def normSample (lo hi x : ℚ) : ℕ := f64ToUint8 ((x - lo) / (hi - lo) * 255)

/-- `np.clip(pixel_array, img_min, img_max)`: elementwise clip of the
whole array. -/
def clipArr (a : List (List ℚ)) (lo hi : ℚ) : List (List ℚ) :=
  arrMap (fun x => npClip x lo hi) a

/-- Lines 42–47 of `normalize_pixel_array`: rescale to 0–255 when
`img_max > img_min`, otherwise `np.zeros_like`, then `astype(np.uint8)`. -/
def rescale (p : List (List ℚ)) (lo hi : ℚ) : List (List ℕ) :=
  if hi > lo then arrMapN (normSample lo hi) p else zerosLike p

/-- `normalize_pixel_array(pixel_array, window_center, window_width)`
(source lines 16–47).  With both window parameters present:
`img_min = c - w // 2`, `img_max = c + w // 2` (Python floor division,
binding tighter than the subtraction), clip, rescale.  Otherwise:
full range `[min, max]`, no clip, rescale. -/
def normalize_pixel_array (a : List (List ℚ))
    (window_center window_width : Option ℚ) : List (List ℕ) :=
  match window_center, window_width with
  | some c, some w =>
      let img_min : ℚ := c - (⌊w / 2⌋ : ℤ)
      let img_max : ℚ := c + (⌊w / 2⌋ : ℤ)
      rescale (clipArr a img_min img_max) img_min img_max
  | _, _ =>
      rescale a (amin a) (amax a)

/-- The display range `[lo, hi]` that `normalize_pixel_array` computes for
a given array and window parameters. -/
def displayRange (a : List (List ℚ))
    (window_center window_width : Option ℚ) : ℚ × ℚ :=
  match window_center, window_width with
  | some c, some w => (c - (⌊w / 2⌋ : ℤ), c + (⌊w / 2⌋ : ℤ))
  | _, _ => (amin a, amax a)

/-- The per-sample input→output map realized by `normalize_pixel_array`
in the non-degenerate (`hi > lo`) case: clip (only when windowed) then
rescale. -/
def sampleMap (a : List (List ℚ))
    (window_center window_width : Option ℚ) : ℚ → ℕ :=
  match window_center, window_width with
  | some c, some w =>
      let img_min : ℚ := c - (⌊w / 2⌋ : ℤ)
      let img_max : ℚ := c + (⌊w / 2⌋ : ℤ)
      fun x => normSample img_min img_max (npClip x img_min img_max)
  | _, _ => fun x => normSample (amin a) (amax a) x

/-- The shape of a rank-2 array: the list of row lengths (this determines
both dimensions). -/
def shape {α : Type} (a : List (List α)) : List ℕ := a.map List.length

/-- A DICOM metadata value that is either a scalar or a multi-valued
sequence (`pydicom.multival.MultiValue` / `list`). -/
inductive DicomValue : Type where
  | scalar (q : ℚ)
  | multi (l : List ℚ)

/-- The decoded DICOM dataset fields that `convert_dicom_to_png` reads
(source lines 64–89): the pixel array and the three optional tags. -/
structure Dataset : Type where
  pixel_array : List (List ℚ)
  PhotometricInterpretation : Option String
  WindowCenter : Option DicomValue
  WindowWidth : Option DicomValue

/-- Selecting element `[0]` of a possibly multi-valued field; on an empty
sequence Python raises `IndexError` (modelled as `none`, which the
orchestrator's `except` turns into a failed conversion). -/
def dicomFirst : DicomValue → Option ℚ
  | .scalar q => some q
  | .multi l => l.head?

/-- Lines 76–89 of `convert_dicom_to_png`: window parameters are extracted
only when `apply_windowing` holds and both tags are present; a
multi-valued tag contributes its first element.  `none` as outer result
models the `IndexError` raised by `[0]` on an empty sequence. -/
def extractWindowParams (d : Dataset) (apply_windowing : Bool) :
    Option (Option ℚ × Option ℚ) :=
  if apply_windowing then
    match d.WindowCenter, d.WindowWidth with
    | some c, some w =>
        match dicomFirst c, dicomFirst w with
        | some cv, some wv => some (some cv, some wv)
        | _, _ => none
    | _, _ => some (none, none)
  else some (none, none)

/-- MONOCHROME1 inversion `pixels = np.max(pixels) - pixels`
(source lines 70–73), with the maximum taken over the original array. -/
def invertQ (a : List (List ℚ)) : List (List ℚ) :=
  arrMap (fun x => amax a - x) a

/-- Lines 69–73 of `convert_dicom_to_png`: invert exactly when the
photometric-interpretation tag is present and equals MONOCHROME1. -/
def applyPhotometric (d : Dataset) : List (List ℚ) :=
  if d.PhotometricInterpretation = some "MONOCHROME1" then invertQ d.pixel_array
  else d.pixel_array

/-- The pixel pipeline of `convert_dicom_to_png` (source lines 62–113):
photometric inversion, window-parameter extraction, normalization.
`none` models a conversion whose raised error was caught by the
`except` block (line 111) and reported as no result. -/
def convert_dicom_to_png (d : Dataset) (apply_windowing : Bool) :
    Option (List (List ℕ)) :=
  match extractWindowParams d apply_windowing with
  | none => none
  | some (wc, ww) =>
      some (normalize_pixel_array (applyPhotometric d) wc ww)

/-- One batch item: `none` input models a file whose DICOM decode raised
(corrupted file); the orchestrator boundary converts any error into a
no-result outcome. -/
def convertOne (d : Option Dataset) (apply_windowing : Bool) :
    Option (List (List ℕ)) :=
  match d with
  | none => none
  | some ds => convert_dicom_to_png ds apply_windowing

/-- `batch_convert_dicom_to_png` (source lines 116–156): convert each
matched file, collect the successful results (`converted_files`). -/
def batch_convert_dicom_to_png (inputs : List (Option Dataset))
    (apply_windowing : Bool) : List (List (List ℕ)) :=
  (inputs.map (fun d => convertOne d apply_windowing)).filterMap id

/-- Maximum value of a uint8 output array (default 0 on empty). -/
def amaxN (b : List (List ℕ)) : ℕ :=
  match b.flatten with
  | [] => 0
  | x :: xs => xs.foldl max x

/-- MONOCHROME1-style inversion applied to a uint8 output array
(`np.max(b) - b`), used to express "windowing then inverting". -/
def invertN (b : List (List ℕ)) : List (List ℕ) :=
  b.map (fun row => row.map (fun v => amaxN b - v))

/-! Helper lemmas about the embedding. -/

theorem arrMap_map_eq (f : ℚ → ℚ) (g : ℚ → ℕ) (a : List (List ℚ)) :
    arrMapN g (arrMap f a) = arrMapN (fun x => g (f x)) a := by
  simp [arrMapN, arrMap, List.map_map, Function.comp]

theorem zerosLike_arrMap (f : ℚ → ℚ) (a : List (List ℚ)) :
    zerosLike (arrMap f a) = zerosLike a := by
  simp [zerosLike, arrMap, List.map_map, Function.comp]

theorem shape_arrMapN (g : ℚ → ℕ) (a : List (List ℚ)) :
    shape (arrMapN g a) = shape a := by
  simp [shape, arrMapN, List.map_map, Function.comp]

theorem shape_zerosLike (a : List (List ℚ)) : shape (zerosLike a) = shape a := by
  simp [shape, zerosLike, List.map_map, Function.comp]

theorem shape_rescale (p : List (List ℚ)) (lo hi : ℚ) :
    shape (rescale p lo hi) = shape p := by
  unfold rescale
  split
  · exact shape_arrMapN _ _
  · exact shape_zerosLike _

theorem shape_arrMap (f : ℚ → ℚ) (a : List (List ℚ)) :
    shape (arrMap f a) = shape a := by
  simp [shape, arrMap, List.map_map, Function.comp]

theorem flatten_arrMapN (g : ℚ → ℕ) (a : List (List ℚ)) :
    (arrMapN g a).flatten = (flat a).map g := by
  simp [arrMapN, flat, List.map_flatten]

theorem rescale_of_not_lt (p : List (List ℚ)) (lo hi : ℚ) (h : ¬ lo < hi) :
    rescale p lo hi = zerosLike p := if_neg h

theorem rescale_of_lt (p : List (List ℚ)) (lo hi : ℚ) (h : lo < hi) :
    rescale p lo hi = arrMapN (normSample lo hi) p := if_pos h

theorem foldl_min_spec (xs : List ℚ) (x : ℚ) :
    xs.foldl min x ≤ x ∧ ∀ y ∈ xs, xs.foldl min x ≤ y := by
  induction xs generalizing x with
  | nil => exact ⟨le_refl x, by intro y hy; cases hy⟩
  | cons a xs ih =>
    refine ⟨?_, ?_⟩
    · exact le_trans (ih (min x a)).1 (min_le_left x a)
    · intro y hy
      rcases List.mem_cons.mp hy with rfl | hy
      · exact le_trans (ih (min x y)).1 (min_le_right x y)
      · exact (ih (min x a)).2 y hy

theorem foldl_max_spec (xs : List ℚ) (x : ℚ) :
    x ≤ xs.foldl max x ∧ ∀ y ∈ xs, y ≤ xs.foldl max x := by
  induction xs generalizing x with
  | nil => exact ⟨le_refl x, by intro y hy; cases hy⟩
  | cons a xs ih =>
    refine ⟨?_, ?_⟩
    · exact le_trans (le_max_left x a) (ih (max x a)).1
    · intro y hy
      rcases List.mem_cons.mp hy with rfl | hy
      · exact le_trans (le_max_right x y) (ih (max x y)).1
      · exact (ih (max x a)).2 y hy

theorem amin_le_mem (a : List (List ℚ)) (x : ℚ) (hx : x ∈ flat a) :
    amin a ≤ x := by
  unfold amin listMin
  cases hfa : flat a with
  | nil => rw [hfa] at hx; cases hx
  | cons z zs =>
    rw [hfa] at hx
    rcases List.mem_cons.mp hx with rfl | hx
    · exact (foldl_min_spec zs x).1
    · exact (foldl_min_spec zs z).2 x hx

theorem mem_le_amax (a : List (List ℚ)) (x : ℚ) (hx : x ∈ flat a) :
    x ≤ amax a := by
  unfold amax listMax
  cases hfa : flat a with
  | nil => rw [hfa] at hx; cases hx
  | cons z zs =>
    rw [hfa] at hx
    rcases List.mem_cons.mp hx with rfl | hx
    · exact (foldl_max_spec zs x).1
    · exact (foldl_max_spec zs z).2 x hx

theorem npClip_mem_Icc (x lo hi : ℚ) (h : lo ≤ hi) :
    lo ≤ npClip x lo hi ∧ npClip x lo hi ≤ hi := by
  unfold npClip
  constructor
  · exact le_min h (le_max_right x lo)
  · exact min_le_left hi _

theorem npClip_mono (x y lo hi : ℚ) (hxy : x ≤ y) :
    npClip x lo hi ≤ npClip y lo hi := by
  unfold npClip
  exact min_le_min (le_refl hi) (max_le_max hxy (le_refl lo))

theorem f64ToUint8_floor (q : ℚ) (h0 : 0 ≤ q) (h255 : q ≤ 255) :
    f64ToUint8 q = (⌊q⌋).toNat := by
  unfold f64ToUint8 ratTrunc
  rw [if_pos h0, Int.emod_eq_of_lt (Int.floor_nonneg.mpr h0)]
  have : ⌊q⌋ ≤ ⌊(255 : ℚ)⌋ := Int.floor_le_floor h255
  have h255' : ⌊(255 : ℚ)⌋ = (255 : ℤ) := by
    exact_mod_cast Int.floor_intCast (α := ℚ) 255
  omega

theorem f64ToUint8_le_255 (q : ℚ) (h0 : 0 ≤ q) (h255 : q ≤ 255) :
    f64ToUint8 q ≤ 255 := by
  rw [f64ToUint8_floor q h0 h255]
  have h1 : ⌊q⌋ ≤ ⌊(255 : ℚ)⌋ := Int.floor_le_floor h255
  have h2 : ⌊(255 : ℚ)⌋ = (255 : ℤ) := by
    exact_mod_cast Int.floor_intCast (α := ℚ) 255
  omega

theorem f64ToUint8_mono (x y : ℚ) (h0 : 0 ≤ x) (hxy : x ≤ y) (h255 : y ≤ 255) :
    f64ToUint8 x ≤ f64ToUint8 y := by
  rw [f64ToUint8_floor x h0 (le_trans hxy h255),
      f64ToUint8_floor y (le_trans h0 hxy) h255]
  exact Int.toNat_le_toNat (Int.floor_le_floor hxy)

theorem scaled_nonneg (lo hi x : ℚ) (hlt : lo < hi) (h1 : lo ≤ x) :
    0 ≤ (x - lo) / (hi - lo) * 255 := by
  have hpos : (0 : ℚ) < hi - lo := by linarith
  have := div_nonneg (by linarith : (0:ℚ) ≤ x - lo) (le_of_lt hpos)
  nlinarith

theorem scaled_le_255 (lo hi x : ℚ) (hlt : lo < hi) (h2 : x ≤ hi) :
    (x - lo) / (hi - lo) * 255 ≤ 255 := by
  have hpos : (0 : ℚ) < hi - lo := by linarith
  have hle1 : (x - lo) / (hi - lo) ≤ 1 := (div_le_one hpos).mpr (by linarith)
  nlinarith

theorem scaled_mono (lo hi x y : ℚ) (hlt : lo < hi) (hxy : x ≤ y) :
    (x - lo) / (hi - lo) * 255 ≤ (y - lo) / (hi - lo) * 255 := by
  have hpos : (0 : ℚ) < hi - lo := by linarith
  have := (div_le_div_iff_of_pos_right hpos).mpr (by linarith : x - lo ≤ y - lo)
  nlinarith

theorem normSample_le_255 (lo hi x : ℚ) (hlt : lo < hi) (h1 : lo ≤ x)
    (h2 : x ≤ hi) : normSample lo hi x ≤ 255 :=
  f64ToUint8_le_255 _ (scaled_nonneg lo hi x hlt h1) (scaled_le_255 lo hi x hlt h2)

theorem normSample_mono (lo hi x y : ℚ) (hlt : lo < hi) (h1 : lo ≤ x)
    (hxy : x ≤ y) (h2 : y ≤ hi) : normSample lo hi x ≤ normSample lo hi y :=
  f64ToUint8_mono _ _ (scaled_nonneg lo hi x hlt h1)
    (scaled_mono lo hi x y hlt hxy) (scaled_le_255 lo hi y hlt h2)

theorem zerosLike_clipArr (a : List (List ℚ)) (lo hi : ℚ) :
    zerosLike (clipArr a lo hi) = zerosLike a := zerosLike_arrMap _ _

theorem clipArr_map_eq (g : ℚ → ℕ) (a : List (List ℚ)) (lo hi : ℚ) :
    arrMapN g (clipArr a lo hi) = arrMapN (fun x => g (npClip x lo hi)) a :=
  arrMap_map_eq _ _ _

/-! The claims. -/

/-- C2: whenever the computed display range is degenerate (`hi ≤ lo`),
`normalize_pixel_array` returns an all-zero array of the same shape as
the input. -/
theorem spec_c2_degenerate_range_zeros (a : List (List ℚ))
    (wc ww : Option ℚ)
    (h : (displayRange a wc ww).2 ≤ (displayRange a wc ww).1) :
    normalize_pixel_array a wc ww = zerosLike a := by
  rcases wc with _ | c <;> rcases ww with _ | w
  case none.none =>
    simp only [displayRange] at h
    exact rescale_of_not_lt a _ _ (not_lt.mpr h)
  case none.some =>
    simp only [displayRange] at h
    exact rescale_of_not_lt a _ _ (not_lt.mpr h)
  case some.none =>
    simp only [displayRange] at h
    exact rescale_of_not_lt a _ _ (not_lt.mpr h)
  case some.some =>
    simp only [displayRange] at h
    show rescale (clipArr a _ _) _ _ = zerosLike a
    rw [rescale_of_not_lt _ _ _ (not_lt.mpr h), zerosLike_clipArr]

/-- C2 witness: a constant 1×2 array with no windowing has `hi = lo = 5`
and normalizes to the all-zero array of its shape. -/
theorem spec_c2_witness :
    normalize_pixel_array [[5, 5]] none none = zerosLike [[5, 5]] :=
  spec_c2_degenerate_range_zeros [[5, 5]] none none
    (of_decide_eq_true (by with_unfolding_all rfl))

/-- C8: the already-full-range array `[[0,128],[128,255]]` normalizes to
itself with no window parameters, and the uint8 cast truncates the
fractional part (63.75 ↦ 63, not 64, on the array `[[0,1,4]]`). -/
theorem spec_c8_identity_and_truncation :
    normalize_pixel_array [[0, 128], [128, 255]] none none
      = [[0, 128], [128, 255]] ∧
    normalize_pixel_array [[0, 1, 4]] none none = [[0, 63, 255]] := by
  constructor
  · with_unfolding_all rfl
  · with_unfolding_all rfl

/-- C10: any window width strictly below 2 (zero, one, fractional or
negative) makes `w // 2` floor to a non-positive value, so `hi ≤ lo` and
the whole image is blanked to zeros, whatever the pixels were. -/
theorem spec_c10_narrow_width_blanks (a : List (List ℚ)) (c w : ℚ)
    (h : w < 2) :
    normalize_pixel_array a (some c) (some w) = zerosLike a := by
  have hf : ⌊w / 2⌋ ≤ 0 := by
    have h1 : ⌊w / 2⌋ < 1 := Int.floor_lt.mpr (by push_cast; linarith)
    omega
  have hfq : ((⌊w / 2⌋ : ℤ) : ℚ) ≤ 0 := by exact_mod_cast hf
  have hle : ¬ (c - (⌊w / 2⌋ : ℤ) < c + (⌊w / 2⌋ : ℤ)) := by
    push_neg
    linarith
  show rescale (clipArr a _ _) _ _ = zerosLike a
  rw [rescale_of_not_lt _ _ _ hle, zerosLike_clipArr]

/-- C10 witness: width 1 at center 50 blanks the non-constant array
`[[0,100]]`. -/
theorem spec_c10_witness :
    normalize_pixel_array [[0, 100]] (some 50) (some 1) = zerosLike [[0, 100]] :=
  spec_c10_narrow_width_blanks [[0, 100]] 50 1
    (of_decide_eq_true (by with_unfolding_all rfl))

/-- C4 counterexample: with center 0 and width −2 the window range is
inverted (`lo = 1 > hi = −1`), and `np.clip` sends the sample 0 to the
hi value −1, not to lo as the claim states. -/
theorem spec_c4_counterexample :
    displayRange [] (some 0) (some (-2)) = (1, -1) ∧
    npClip 0 1 (-1) = -1 ∧
    npClip 0 1 (-1) ≠ 1 := by
  refine ⟨?_, ?_, ?_⟩
  · with_unfolding_all rfl
  · with_unfolding_all rfl
  · exact of_decide_eq_true (by with_unfolding_all rfl)

/-- C4 amended: when the window parameters produce an inverted range
(`hi < lo`), the clip step clamps every sample to the hi value — the
upper bound wins for all samples. -/
theorem spec_c4_amended_clip_to_hi (x c w : ℚ)
    (h : c + (⌊w / 2⌋ : ℤ) < c - (⌊w / 2⌋ : ℤ)) :
    npClip x (c - (⌊w / 2⌋ : ℤ)) (c + (⌊w / 2⌋ : ℤ)) = c + (⌊w / 2⌋ : ℤ) := by
  unfold npClip
  exact min_eq_left (le_trans (le_of_lt h) (le_max_right x _))

/-- C4 witness: sample 0 with center 0 and width −2 is clamped to the hi
value −1. -/
theorem spec_c4_witness :
    npClip 0 (0 - (⌊(-2 : ℚ) / 2⌋ : ℤ)) (0 + (⌊(-2 : ℚ) / 2⌋ : ℤ))
      = 0 + (⌊(-2 : ℚ) / 2⌋ : ℤ) :=
  spec_c4_amended_clip_to_hi 0 0 (-2)
    (of_decide_eq_true (by with_unfolding_all rfl))

/-- C1 counterexample: for `[[10]]` with center 0, width 100 the windowed
normalization gives `[[153]]`, while full-range normalization of the
clipped array sees a constant array and gives `[[0]]`. -/
theorem spec_c1_counterexample :
    normalize_pixel_array [[10]] (some 0) (some 100)
      ≠ normalize_pixel_array
          (clipArr [[10]] (0 - (⌊(100 : ℚ) / 2⌋ : ℤ)) (0 + (⌊(100 : ℚ) / 2⌋ : ℤ)))
          none none :=
  of_decide_eq_true (by with_unfolding_all rfl)

/-- C1 amended: windowed normalization equals full-range normalization of
the clipped array provided the clipped array attains both window bounds
(its minimum is `c - w // 2` and its maximum is `c + w // 2`); without
that proviso the equality can fail, because the windowed path rescales
against the window bounds, not the clipped min/max. -/
theorem spec_c1_amended_clip_factorization (a : List (List ℚ)) (c w : ℚ)
    (hmin : amin (clipArr a (c - (⌊w / 2⌋ : ℤ)) (c + (⌊w / 2⌋ : ℤ)))
      = c - (⌊w / 2⌋ : ℤ))
    (hmax : amax (clipArr a (c - (⌊w / 2⌋ : ℤ)) (c + (⌊w / 2⌋ : ℤ)))
      = c + (⌊w / 2⌋ : ℤ)) :
    normalize_pixel_array a (some c) (some w)
      = normalize_pixel_array
          (clipArr a (c - (⌊w / 2⌋ : ℤ)) (c + (⌊w / 2⌋ : ℤ))) none none := by
  have h1 : normalize_pixel_array a (some c) (some w)
      = rescale (clipArr a (c - (⌊w / 2⌋ : ℤ)) (c + (⌊w / 2⌋ : ℤ)))
          (c - (⌊w / 2⌋ : ℤ)) (c + (⌊w / 2⌋ : ℤ)) := rfl
  have h2 : normalize_pixel_array
        (clipArr a (c - (⌊w / 2⌋ : ℤ)) (c + (⌊w / 2⌋ : ℤ))) none none
      = rescale (clipArr a (c - (⌊w / 2⌋ : ℤ)) (c + (⌊w / 2⌋ : ℤ)))
          (amin (clipArr a (c - (⌊w / 2⌋ : ℤ)) (c + (⌊w / 2⌋ : ℤ))))
          (amax (clipArr a (c - (⌊w / 2⌋ : ℤ)) (c + (⌊w / 2⌋ : ℤ)))) := rfl
  rw [h1, h2, hmin, hmax]

/-- C1 witness: `[[0,100]]` with center 50 and width 100 attains both
window bounds 0 and 100, so the two normalizations agree there. -/
theorem spec_c1_witness :
    normalize_pixel_array [[0, 100]] (some 50) (some 100)
      = normalize_pixel_array
          (clipArr [[0, 100]] (50 - (⌊(100 : ℚ) / 2⌋ : ℤ))
            (50 + (⌊(100 : ℚ) / 2⌋ : ℤ))) none none :=
  spec_c1_amended_clip_factorization [[0, 100]] 50 100
    (by with_unfolding_all rfl) (by with_unfolding_all rfl)

/-- C6: with both window tags present as multi-valued sequences
`center=[40,400]`, `width=[80,1]`, extraction keeps only the first
elements and the normalizer is invoked with center 40 and width 80. -/
theorem spec_c6_multivalue_first_element (a : List (List ℚ))
    (tag : Option String) :
    extractWindowParams
        ⟨a, tag, some (.multi [40, 400]), some (.multi [80, 1])⟩ true
      = some (some 40, some 80) ∧
    convert_dicom_to_png
        ⟨a, tag, some (.multi [40, 400]), some (.multi [80, 1])⟩ true
      = some (normalize_pixel_array
          (applyPhotometric ⟨a, tag, some (.multi [40, 400]), some (.multi [80, 1])⟩)
          (some 40) (some 80)) := by
  exact ⟨rfl, rfl⟩

/-- C9: a failing input (decode error, modelled as `none`) contributes no
result and does not disturb the conversions around it; in the concrete
3-file batch with one corrupted file there are exactly 2 successes out
of 3 inputs. -/
theorem spec_c9_error_isolation :
    (∀ (xs ys : List (Option Dataset)) (aw : Bool),
      batch_convert_dicom_to_png (xs ++ none :: ys) aw
        = batch_convert_dicom_to_png xs aw ++ batch_convert_dicom_to_png ys aw) ∧
    (batch_convert_dicom_to_png
        [some ⟨[[0, 100]], none, none, none⟩, none,
         some ⟨[[3, 7]], none, none, none⟩] true).length = 2 ∧
    ([some ⟨[[0, 100]], none, none, none⟩, none,
      some ⟨[[3, 7]], none, none, none⟩] : List (Option Dataset)).length = 3 := by
  refine ⟨?_, ?_, rfl⟩
  · intro xs ys aw
    unfold batch_convert_dicom_to_png
    rw [List.map_append, List.filterMap_append, List.map_cons]
    rfl
  · with_unfolding_all rfl

/-- C5: when the photometric tag is MONOCHROME1 the orchestrator
normalizes the inverted array `max(pixels) - pixels` (inversion computed
on the original array, before windowing), and the ordering is
observable: on `[[0,1,10]]` with center 2, width 4, inverting before
windowing differs from windowing before inverting. -/
theorem spec_c5_monochrome1_before_windowing :
    (∀ (d : Dataset) (aw : Bool),
      d.PhotometricInterpretation = some "MONOCHROME1" →
      convert_dicom_to_png d aw
        = (extractWindowParams d aw).map
            (fun p => normalize_pixel_array (invertQ d.pixel_array) p.1 p.2)) ∧
    normalize_pixel_array (invertQ [[0, 1, 10]]) (some 2) (some 4)
      ≠ invertN (normalize_pixel_array [[0, 1, 10]] (some 2) (some 4)) := by
  constructor
  · intro d aw h
    have hp : applyPhotometric d = invertQ d.pixel_array := by
      unfold applyPhotometric
      rw [if_pos h]
    unfold convert_dicom_to_png
    rw [hp]
    cases extractWindowParams d aw with
    | none => rfl
    | some p =>
      cases p with
      | mk wc ww => rfl
  · exact of_decide_eq_true (by with_unfolding_all rfl)

/-- C5 witness: the MONOCHROME1 dataset over `[[0,1,10]]` is normalized
from its inverted array, and the concrete order-sensitivity instance. -/
theorem spec_c5_witness :
    convert_dicom_to_png ⟨[[0, 1, 10]], some "MONOCHROME1", none, none⟩ true
      = (extractWindowParams
            ⟨[[0, 1, 10]], some "MONOCHROME1", none, none⟩ true).map
          (fun p => normalize_pixel_array (invertQ [[0, 1, 10]]) p.1 p.2) ∧
    normalize_pixel_array (invertQ [[0, 1, 10]]) (some 2) (some 4)
      ≠ invertN (normalize_pixel_array [[0, 1, 10]] (some 2) (some 4)) :=
  ⟨spec_c5_monochrome1_before_windowing.1
      ⟨[[0, 1, 10]], some "MONOCHROME1", none, none⟩ true rfl,
   spec_c5_monochrome1_before_windowing.2⟩

/-- C7: the output of `normalize_pixel_array` has exactly the shape of
its input, for any window parameters (nonemptiness reflects that NumPy
raises on `min`/`max` of an empty array in the full-range branch). -/
theorem spec_c7_shape_preserved (a : List (List ℚ)) (wc ww : Option ℚ)
    (_nonempty : flat a ≠ []) :
    shape (normalize_pixel_array a wc ww) = shape a := by
  rcases wc with _ | c <;> rcases ww with _ | w
  case none.none => exact shape_rescale a _ _
  case none.some => exact shape_rescale a _ _
  case some.none => exact shape_rescale a _ _
  case some.some =>
    show shape (rescale (clipArr a _ _) _ _) = shape a
    rw [shape_rescale]
    exact shape_arrMap _ _

/-- C7 witness: a ragged 2×(2,1) array keeps its shape through windowed
normalization with only a center (full-range branch). -/
theorem spec_c7_witness :
    shape (normalize_pixel_array [[1, 2], [3]] (some 5) none)
      = shape ([[1, 2], [3]] : List (List ℚ)) :=
  spec_c7_shape_preserved [[1, 2], [3]] (some 5) none
    (of_decide_eq_true (by with_unfolding_all rfl))

theorem fullrange_case (a : List (List ℚ)) (h : amin a < amax a) :
    rescale a (amin a) (amax a)
      = arrMapN (fun x => normSample (amin a) (amax a) x) a ∧
    (∀ v ∈ (rescale a (amin a) (amax a)).flatten, v ≤ 255) ∧
    (∀ x ∈ flat a, ∀ y ∈ flat a, x ≤ y →
      normSample (amin a) (amax a) x ≤ normSample (amin a) (amax a) y) := by
  have heq := rescale_of_lt a (amin a) (amax a) h
  refine ⟨heq, ?_, ?_⟩
  · intro v hv
    rw [heq, flatten_arrMapN] at hv
    rcases List.mem_map.mp hv with ⟨x, hx, rfl⟩
    exact normSample_le_255 _ _ _ h (amin_le_mem a x hx) (mem_le_amax a x hx)
  · intro x hx y hy hxy
    exact normSample_mono _ _ _ _ h (amin_le_mem a x hx) hxy (mem_le_amax a y hy)

/-- C3: whenever the display range is non-degenerate (`lo < hi`), the
normalizer acts elementwise as `sampleMap`, every output value is at
most 255 (and at least 0, being a natural number), and the per-sample
map is monotone over the samples of the array: larger inputs give
outputs at least as large. -/
theorem spec_c3_range_and_monotone (a : List (List ℚ)) (wc ww : Option ℚ)
    (h : (displayRange a wc ww).1 < (displayRange a wc ww).2) :
    normalize_pixel_array a wc ww = arrMapN (sampleMap a wc ww) a ∧
    (∀ v ∈ (normalize_pixel_array a wc ww).flatten, v ≤ 255) ∧
    (∀ x ∈ flat a, ∀ y ∈ flat a, x ≤ y →
      sampleMap a wc ww x ≤ sampleMap a wc ww y) := by
  rcases wc with _ | c <;> rcases ww with _ | w
  case none.none =>
    simp only [displayRange] at h
    exact fullrange_case a h
  case none.some =>
    simp only [displayRange] at h
    exact fullrange_case a h
  case some.none =>
    simp only [displayRange] at h
    exact fullrange_case a h
  case some.some =>
    simp only [displayRange] at h
    have hle : c - (⌊w / 2⌋ : ℤ) ≤ c + (⌊w / 2⌋ : ℤ) := le_of_lt h
    have heq : normalize_pixel_array a (some c) (some w)
        = arrMapN (sampleMap a (some c) (some w)) a := by
      show rescale (clipArr a (c - (⌊w / 2⌋ : ℤ)) (c + (⌊w / 2⌋ : ℤ)))
          (c - (⌊w / 2⌋ : ℤ)) (c + (⌊w / 2⌋ : ℤ)) = _
      rw [rescale_of_lt _ _ _ h, clipArr_map_eq]
      rfl
    refine ⟨heq, ?_, ?_⟩
    · intro v hv
      rw [heq, flatten_arrMapN] at hv
      rcases List.mem_map.mp hv with ⟨x, hx, rfl⟩
      show normSample (c - (⌊w / 2⌋ : ℤ)) (c + (⌊w / 2⌋ : ℤ))
          (npClip x (c - (⌊w / 2⌋ : ℤ)) (c + (⌊w / 2⌋ : ℤ))) ≤ 255
      have hc := npClip_mem_Icc x (c - (⌊w / 2⌋ : ℤ)) (c + (⌊w / 2⌋ : ℤ)) hle
      exact normSample_le_255 _ _ _ h hc.1 hc.2
    · intro x _ y _ hxy
      show normSample (c - (⌊w / 2⌋ : ℤ)) (c + (⌊w / 2⌋ : ℤ))
          (npClip x (c - (⌊w / 2⌋ : ℤ)) (c + (⌊w / 2⌋ : ℤ)))
        ≤ normSample (c - (⌊w / 2⌋ : ℤ)) (c + (⌊w / 2⌋ : ℤ))
          (npClip y (c - (⌊w / 2⌋ : ℤ)) (c + (⌊w / 2⌋ : ℤ)))
      have hcx := npClip_mem_Icc x (c - (⌊w / 2⌋ : ℤ)) (c + (⌊w / 2⌋ : ℤ)) hle
      have hcy := npClip_mem_Icc y (c - (⌊w / 2⌋ : ℤ)) (c + (⌊w / 2⌋ : ℤ)) hle
      exact normSample_mono _ _ _ _ h hcx.1
        (npClip_mono x y (c - (⌊w / 2⌋ : ℤ)) (c + (⌊w / 2⌋ : ℤ)) hxy) hcy.2

/-- C3 witness: on `[[0,100]]` with no windowing the display range is
`(0,100)`, the normalizer is the elementwise `sampleMap`, and the map is
monotone from sample 0 to sample 100. -/
theorem spec_c3_witness :
    normalize_pixel_array [[0, 100]] none none
      = arrMapN (sampleMap [[0, 100]] none none) [[0, 100]] ∧
    sampleMap [[0, 100]] none none 0 ≤ sampleMap [[0, 100]] none none 100 := by
  have h := spec_c3_range_and_monotone [[0, 100]] none none
    (of_decide_eq_true (by with_unfolding_all rfl))
  refine ⟨h.1, h.2.2 0 ?_ 100 ?_ ?_⟩
  · exact of_decide_eq_true (by with_unfolding_all rfl)
  · exact of_decide_eq_true (by with_unfolding_all rfl)
  · exact of_decide_eq_true (by with_unfolding_all rfl)
